import Mathlib

/-!
Verification of the merge-planner core of the feishu-time-merger repository.

The planner (`calculateMerges` in `src/utils/mergeLogic.ts`) groups interval
records by their joined `groupKeys`, sorts each group by `start`, and walks the
sorted group building runs of continuous records, emitting a `MergeProposal`
for every run that absorbed at least one additional record.

The repository contains two variants of the module:
* the full variant (same-day check plus duration validation), embedded here as
  `calculateMerges`;
* an earlier variant without the same-day check and without validation,
  embedded as `calculateMergesNoDay`.

Timestamps are embedded as `Int` (milliseconds since epoch).  The source's
same-day check compares `new Date(t).toDateString()` strings, i.e. the local
calendar day under the ambient fixed UTC offset of the runtime; that ambient
offset is made an explicit parameter `tz` (milliseconds), so
`sameDay tz a b` holds iff `a` and `b` fall on the same local calendar day.
-/

/-- Record type `IRecord` from `mergeLogic.ts`: one interval record.  The TS
field `end` is a Lean keyword and is embedded as `stop`. -/
structure IRecord where
  id : String
  start : Int
  stop : Int
  groupKeys : List String
  duration : Option Int
deriving DecidableEq

/-- The optional `validation` payload attached by `finalizeProposal`. -/
structure Validation where
  originalSum : Int
  newDuration : Int
  isValid : Bool
deriving DecidableEq

/-- Proposal type `MergeProposal` from `mergeLogic.ts`.  The earlier variant
of the module has no `validation` field; its embedding simply never sets
it. -/
structure MergeProposal where
  baseRecordId : String
  newStart : Int
  newEnd : Int
  recordsToDelete : List String
  originalRecords : List IRecord
  validation : Option Validation
deriving DecidableEq

/-- The grouping key of a record: `r.groupKeys.join('|||')`. -/
def joinKeys (ks : List String) : String :=
  String.intercalate "|||" ks

/-- The distinct grouping keys of the input, in order of first occurrence
(the iteration order of the `groups` object for non-index-like keys). -/
def keysOf (records : List IRecord) : List String :=
  records.foldl
    (fun ks r => if joinKeys r.groupKeys ∈ ks then ks else ks ++ [joinKeys r.groupKeys]) []

/-- The buckets of the `groups` object: for each key, the records carrying
that key, in input order. -/
def groupsOf (records : List IRecord) : List (List IRecord) :=
  (keysOf records).map (fun k => records.filter (fun r => joinKeys r.groupKeys == k))

/-- Equality test `new Date(a).toDateString() === new Date(b).toDateString()`
under the ambient fixed UTC offset `tz` (milliseconds): equality of local
calendar days, i.e. of the floors of the offset instants by 86,400,000 ms. -/
def sameDay (tz a b : Int) : Bool :=
  (a + tz).fdiv 86400000 == (b + tz).fdiv 86400000

/-- The sort comparator `(a, b) => a.start - b.start`. -/
def startLE (a b : IRecord) : Prop := a.start ≤ b.start

instance : DecidableRel startLE := fun a b => Int.decLe a.start b.start

instance : IsTotal IRecord startLE := ⟨fun a b => Int.le_total a.start b.start⟩

instance : IsTrans IRecord startLE := ⟨fun _ _ _ h h' => le_trans h h'⟩

/-- The fresh one-record accumulator the loop builds when `currentProposal`
is null or discontinuity is hit. -/
def seedProposal (record : IRecord) : MergeProposal :=
  { baseRecordId := record.id
    newStart := record.start
    newEnd := record.stop
    recordsToDelete := []
    originalRecords := [record]
    validation := none }

/-- The merge branch of the loop body: extend `newEnd`, push the id and the
record. -/
def absorb (cur : MergeProposal) (record : IRecord) : MergeProposal :=
  { cur with
    newEnd := max cur.newEnd record.stop
    recordsToDelete := cur.recordsToDelete ++ [record.id]
    originalRecords := cur.originalRecords ++ [record] }

/-- The duration sum
`p.originalRecords.reduce((sum, r) => sum + (r.duration || 0), 0)`. -/
def sumDur (l : List IRecord) : Int :=
  l.foldl (fun sum r => sum + r.duration.getD 0) 0

/-- Function `finalizeProposal` from the full variant: attach a `validation`
object iff every contributing record has a `duration`. -/
def finalizeProposal (p : MergeProposal) : MergeProposal :=
  let originalSum := sumDur p.originalRecords
  let newDurationMs := p.newEnd - p.newStart
  let hasDuration := p.originalRecords.all (fun r => r.duration.isSome)
  if hasDuration then
    { p with validation := some ⟨originalSum, newDurationMs, true⟩ }
  else p

/-- Emission guard of the full variant:
`if (recordsToDelete.length > 0) { finalizeProposal(cur); proposals.push(cur) }`. -/
def emitIfMulti (props : List MergeProposal) (cur : MergeProposal) : List MergeProposal :=
  if 0 < cur.recordsToDelete.length then props ++ [finalizeProposal cur] else props

/-- One iteration of the full variant's run-building loop over the sorted
group, acting on the pair (proposals so far, current accumulator). -/
def runStep (tz : Int) :
    List MergeProposal × Option MergeProposal → IRecord →
      List MergeProposal × Option MergeProposal
  | (props, none), record => (props, some (seedProposal record))
  | (props, some cur), record =>
    if ((record.start - cur.newEnd).natAbs < 1000 : Bool)
        && sameDay tz cur.newStart record.start then
      (props, some (absorb cur record))
    else
      (emitIfMulti props cur, some (seedProposal record))

/-- The trailing `if (currentProposal && ...recordsToDelete.length > 0)`
flush after the loop (full variant). -/
def flushState : List MergeProposal × Option MergeProposal → List MergeProposal
  | (props, none) => props
  | (props, some cur) => emitIfMulti props cur

/-- Processing of one bucket by the full variant: sort by `start`, run the
loop, flush. -/
def processGroup (tz : Int) (g : List IRecord) : List MergeProposal :=
  flushState ((List.insertionSort startLE g).foldl (runStep tz) ([], none))

/-- Function `calculateMerges` (full variant, with the same-day check and
validation), with the ambient local-timezone offset `tz` explicit. -/
def calculateMerges (tz : Int) (records : List IRecord) : List MergeProposal :=
  ((groupsOf records).map (processGroup tz)).flatten

/-- The early variant's emission: push the accumulator without
finalization (that variant has no validation). -/
def emitRawIfMulti (props : List MergeProposal) (cur : MergeProposal) : List MergeProposal :=
  if 0 < cur.recordsToDelete.length then props ++ [cur] else props

/-- One iteration of the early variant's loop: continuity is purely
`Math.abs(record.start - newEnd) < 1000`, no same-day check. -/
def runStepNoDay :
    List MergeProposal × Option MergeProposal → IRecord →
      List MergeProposal × Option MergeProposal
  | (props, none), record => (props, some (seedProposal record))
  | (props, some cur), record =>
    if ((record.start - cur.newEnd).natAbs < 1000 : Bool) then
      (props, some (absorb cur record))
    else
      (emitRawIfMulti props cur, some (seedProposal record))

/-- The early variant's trailing flush. -/
def flushStateNoDay : List MergeProposal × Option MergeProposal → List MergeProposal
  | (props, none) => props
  | (props, some cur) => emitRawIfMulti props cur

/-- Processing of one bucket by the early variant. -/
def processGroupNoDay (g : List IRecord) : List MergeProposal :=
  flushStateNoDay ((List.insertionSort startLE g).foldl runStepNoDay ([], none))

/-- Function `calculateMerges` of the early variant: no same-day check, no
validation. -/
def calculateMergesNoDay (records : List IRecord) : List MergeProposal :=
  ((groupsOf records).map processGroupNoDay).flatten

/-- The running maximum of `stop` over a list, seeded at `e`: the value of
the accumulator's `newEnd` after absorbing the list. -/
def maxEndFrom (e : Int) (l : List IRecord) : Int :=
  l.foldl (fun m x => max m x.stop) e

/-- The continuity predicate between an isolated record `r` held in the
accumulator and a candidate `s`: sequential within the 1000 ms tolerance and
on the same local calendar day. -/
def ContRec (tz : Int) (r s : IRecord) : Prop :=
  (s.start - r.stop).natAbs < 1000 ∧ sameDay tz r.start s.start = true

instance : ∀ tz r s, Decidable (ContRec tz r s) := fun _ _ _ => instDecidableAnd

/-- Structural invariant of the run-building accumulator: its fields are all
determined by the nonempty, `start`-sorted list of absorbed records. -/
def AccCore (cur : MergeProposal) : Prop :=
  ∃ r rs, cur.originalRecords = r :: rs ∧
    cur.baseRecordId = r.id ∧
    cur.newStart = r.start ∧
    cur.recordsToDelete = rs.map IRecord.id ∧
    cur.newEnd = maxEndFrom r.stop rs ∧
    (r :: rs).Pairwise startLE ∧
    cur.validation = none

/-- Structural invariant of every emitted proposal: the accumulator invariant
plus at least one absorbed record and the `finalizeProposal` validation
clause. -/
def PropGood (q : MergeProposal) : Prop :=
  ∃ r rs, q.originalRecords = r :: rs ∧
    q.baseRecordId = r.id ∧
    q.newStart = r.start ∧
    q.recordsToDelete = rs.map IRecord.id ∧
    q.newEnd = maxEndFrom r.stop rs ∧
    (r :: rs).Pairwise startLE ∧
    rs ≠ [] ∧
    q.validation =
      (if (r :: rs).all (fun x => x.duration.isSome) then
        some ⟨sumDur (r :: rs), q.newEnd - q.newStart, true⟩
      else none)

/-- A good proposal all of whose records satisfy `P` (used with `P` =
membership in one grouping bucket). -/
def GoodProp (P : IRecord → Prop) (q : MergeProposal) : Prop :=
  PropGood q ∧ ∀ a ∈ q.originalRecords, P a

/-- Concrete record: continuous with `w2`, carries a duration. -/
def w1 : IRecord := ⟨"a", 0, 500, ["g"], some 5⟩

/-- Concrete record: continuous with `w1`, carries a duration. -/
def w2 : IRecord := ⟨"b", 600, 900, ["g"], some 7⟩

/-- The validation payload of `wProp`. -/
def wVal : Validation := ⟨12, 900, true⟩

/-- The proposal `calculateMerges 0 [w1, w2]` emits. -/
def wProp : MergeProposal := ⟨"a", 0, 900, ["b"], [w1, w2], some wVal⟩

/-- Concrete isolated record (9500 ms away from `iso2`). -/
def iso1 : IRecord := ⟨"i1", 0, 500, ["g"], none⟩

/-- Concrete isolated record (9500 ms away from `iso1`). -/
def iso2 : IRecord := ⟨"i2", 10000, 20000, ["g"], none⟩

/-- Concrete record for the tolerance boundary: gap to `t2` is 999 ms. -/
def t1 : IRecord := ⟨"t1", 0, 500, ["g"], none⟩

/-- Concrete record for the tolerance boundary: starts 999 ms after `t1`
ends. -/
def t2 : IRecord := ⟨"t2", 1499, 1600, ["g"], none⟩

/-- Concrete record for the tolerance boundary: gap to `t4` is 1000 ms. -/
def t3 : IRecord := ⟨"t3", 0, 500, ["g"], none⟩

/-- Concrete record for the tolerance boundary: starts 1000 ms after `t3`
ends. -/
def t4 : IRecord := ⟨"t4", 1500, 1600, ["g"], none⟩

/-- Concrete record starting (and ending) late on local day 0 (tz = 0). -/
def d1 : IRecord := ⟨"d1", 86399500, 86399900, ["g"], none⟩

/-- Concrete record starting early on local day 1, 600 ms after `d1` ends. -/
def d2 : IRecord := ⟨"d2", 86400500, 86400900, ["g"], none⟩

/-- Concrete accumulator-seeding record with a long span. -/
def cxA : IRecord := ⟨"p", 0, 10000, ["g"], none⟩

/-- Concrete record starting inside `cxA` (overlap 9500 ms, beyond the
tolerance). -/
def cxB : IRecord := ⟨"q", 500, 600, ["g"], none⟩

/-- Concrete accumulator-seeding record for the small-overlap case. -/
def ovA : IRecord := ⟨"o1", 0, 1500, ["g"], none⟩

/-- Concrete record starting inside `ovA` (overlap 600 ms, within the
tolerance). -/
def ovB : IRecord := ⟨"o2", 900, 2000, ["g"], none⟩

/-- Concrete record whose single group key contains the separator. -/
def k1 : IRecord := ⟨"k1", 0, 500, ["a|||b"], none⟩

/-- Concrete record whose two group keys join to the same string as `k1`'s. -/
def k2 : IRecord := ⟨"k2", 600, 900, ["a", "b"], none⟩

theorem maxEndFrom_cons (e : Int) (y : IRecord) (l : List IRecord) :
    maxEndFrom e (y :: l) = maxEndFrom (max e y.stop) l := rfl

theorem maxEndFrom_append (e : Int) (l : List IRecord) (x : IRecord) :
    maxEndFrom e (l ++ [x]) = max (maxEndFrom e l) x.stop := by
  simp [maxEndFrom, List.foldl_append]

theorem le_maxEndFrom : ∀ (l : List IRecord) (e : Int), e ≤ maxEndFrom e l
  | [], _ => le_refl _
  | y :: l, e => le_trans (le_max_left e y.stop) (le_maxEndFrom l (max e y.stop))

theorem mem_le_maxEndFrom :
    ∀ (l : List IRecord) (e : Int) (x : IRecord), x ∈ l → x.stop ≤ maxEndFrom e l
  | y :: l, e, x, hx => by
    rw [maxEndFrom_cons]
    rcases List.mem_cons.mp hx with rfl | hx'
    · exact le_trans (le_max_right e x.stop) (le_maxEndFrom l _)
    · exact mem_le_maxEndFrom l _ x hx'

theorem maxEndFrom_choice :
    ∀ (l : List IRecord) (e : Int), maxEndFrom e l = e ∨ ∃ x ∈ l, maxEndFrom e l = x.stop
  | [], _ => Or.inl rfl
  | y :: l, e => by
    rw [maxEndFrom_cons]
    rcases maxEndFrom_choice l (max e y.stop) with h | ⟨x, hx, h⟩
    · rcases max_choice e y.stop with h' | h'
      · exact Or.inl (h.trans h')
      · exact Or.inr ⟨y, List.mem_cons_self y l, h.trans h'⟩
    · exact Or.inr ⟨x, List.mem_cons_of_mem y hx, h⟩

theorem foldl_add_getD :
    ∀ (l : List IRecord) (a : Int),
      l.foldl (fun sum r => sum + r.duration.getD 0) a =
        a + (l.map (fun r => r.duration.getD 0)).sum
  | [], a => by simp
  | y :: l, a => by
    rw [List.foldl_cons, foldl_add_getD l (a + y.duration.getD 0), List.map_cons,
      List.sum_cons, add_assoc]

theorem sumDur_eq (l : List IRecord) :
    sumDur l = (l.map (fun r => r.duration.getD 0)).sum := by
  rw [sumDur, foldl_add_getD l 0, zero_add]

theorem finalizeProposal_spec (p : MergeProposal) :
    (finalizeProposal p).baseRecordId = p.baseRecordId ∧
    (finalizeProposal p).newStart = p.newStart ∧
    (finalizeProposal p).newEnd = p.newEnd ∧
    (finalizeProposal p).recordsToDelete = p.recordsToDelete ∧
    (finalizeProposal p).originalRecords = p.originalRecords ∧
    (finalizeProposal p).validation =
      (if p.originalRecords.all (fun r => r.duration.isSome) then
        some ⟨sumDur p.originalRecords, p.newEnd - p.newStart, true⟩
      else p.validation) := by
  unfold finalizeProposal
  by_cases h : p.originalRecords.all (fun r => r.duration.isSome) <;> simp [h]

theorem accCore_seed (x : IRecord) : AccCore (seedProposal x) :=
  ⟨x, [], rfl, rfl, rfl, rfl, rfl, by simp, rfl⟩

theorem accCore_absorb {cur : MergeProposal} (x : IRecord) (hc : AccCore cur)
    (hle : ∀ a ∈ cur.originalRecords, a.start ≤ x.start) : AccCore (absorb cur x) := by
  obtain ⟨r, rs, ho, hb, hs, hd, he, hp, hv⟩ := hc
  refine ⟨r, rs ++ [x], ?_, hb, hs, ?_, ?_, ?_, hv⟩
  · show cur.originalRecords ++ [x] = r :: (rs ++ [x])
    rw [ho]; rfl
  · show cur.recordsToDelete ++ [x.id] = (rs ++ [x]).map IRecord.id
    rw [hd, List.map_append]; rfl
  · show max cur.newEnd x.stop = maxEndFrom r.stop (rs ++ [x])
    rw [he, maxEndFrom_append]
  · have hsplit : r :: (rs ++ [x]) = (r :: rs) ++ [x] := rfl
    rw [hsplit, List.pairwise_append]
    refine ⟨hp, by simp, ?_⟩
    intro a ha b hb'
    rw [List.mem_singleton] at hb'; subst hb'
    exact hle a (by rw [ho]; exact ha)

theorem emitIfMulti_seed (props : List MergeProposal) (x : IRecord) :
    emitIfMulti props (seedProposal x) = props := rfl

theorem propGood_finalize {cur : MergeProposal} (hc : AccCore cur)
    (hne : cur.recordsToDelete ≠ []) : PropGood (finalizeProposal cur) := by
  obtain ⟨r, rs, ho, hb, hs, hd, he, hp, hv⟩ := hc
  obtain ⟨f1, f2, f3, f4, f5, f6⟩ := finalizeProposal_spec cur
  refine ⟨r, rs, ?_, ?_, ?_, ?_, ?_, hp, ?_, ?_⟩
  · rw [f5, ho]
  · rw [f1, hb]
  · rw [f2, hs]
  · rw [f4, hd]
  · rw [f3, he]
  · intro hrs; exact hne (by rw [hd, hrs]; rfl)
  · rw [f6, ho, hv, f3, f2]

theorem emitIfMulti_good {P : IRecord → Prop} {props : List MergeProposal}
    {cur : MergeProposal} (hprops : ∀ q ∈ props, GoodProp P q) (hc : AccCore cur)
    (hcP : ∀ a ∈ cur.originalRecords, P a) :
    ∀ q ∈ emitIfMulti props cur, GoodProp P q := by
  intro q hq
  unfold emitIfMulti at hq
  by_cases h : 0 < cur.recordsToDelete.length
  · rw [if_pos h] at hq
    rcases List.mem_append.mp hq with hq' | hq'
    · exact hprops q hq'
    · rw [List.mem_singleton] at hq'; subst hq'
      refine ⟨propGood_finalize hc ?_, ?_⟩
      · intro h0; rw [h0] at h; exact absurd h (by simp)
      · intro a ha
        rw [(finalizeProposal_spec cur).2.2.2.2.1] at ha
        exact hcP a ha
  · rw [if_neg h] at hq; exact hprops q hq

theorem seed_state_ok (P : IRecord → Prop) (x : IRecord) (l : List IRecord)
    (hPx : P x) (hx : ∀ y ∈ l, startLE x y) :
    AccCore (seedProposal x) ∧ (∀ a ∈ (seedProposal x).originalRecords, P a) ∧
      ∀ a ∈ (seedProposal x).originalRecords, ∀ y ∈ l, a.start ≤ y.start := by
  refine ⟨accCore_seed x, ?_, ?_⟩
  · intro a ha
    rw [show (seedProposal x).originalRecords = [x] from rfl, List.mem_singleton] at ha
    subst ha; exact hPx
  · intro a ha y hy
    rw [show (seedProposal x).originalRecords = [x] from rfl, List.mem_singleton] at ha
    subst ha; exact hx y hy

theorem foldl_runStep_good (tz : Int) (P : IRecord → Prop) :
    ∀ (l : List IRecord) (props : List MergeProposal) (st : Option MergeProposal),
      l.Pairwise startLE →
      (∀ x ∈ l, P x) →
      (∀ q ∈ props, GoodProp P q) →
      (∀ cur, st = some cur → AccCore cur ∧ (∀ a ∈ cur.originalRecords, P a) ∧
        ∀ a ∈ cur.originalRecords, ∀ x ∈ l, a.start ≤ x.start) →
      ∀ q ∈ flushState (l.foldl (runStep tz) (props, st)), GoodProp P q
  | [], props, st, _, _, hprops, hst => by
    cases st with
    | none => intro q hq; exact hprops q hq
    | some cur =>
      obtain ⟨hc, hcP, _⟩ := hst cur rfl
      intro q hq
      exact emitIfMulti_good hprops hc hcP q hq
  | x :: l, props, st, hl, hP, hprops, hst => by
    obtain ⟨hx, hl'⟩ := List.pairwise_cons.mp hl
    have hP' : ∀ y ∈ l, P y := fun y hy => hP y (List.mem_cons_of_mem x hy)
    rw [List.foldl_cons]
    cases st with
    | none =>
      have hstep : runStep tz (props, none) x = (props, some (seedProposal x)) := rfl
      rw [hstep]
      apply foldl_runStep_good tz P l props (some (seedProposal x)) hl' hP' hprops
      intro cur hcur
      obtain rfl := Option.some.inj hcur.symm
      exact seed_state_ok P x l (hP x (List.mem_cons_self x l)) hx
    | some cur =>
      obtain ⟨hc, hcP, hfwd⟩ := hst cur rfl
      by_cases hcond :
          (((x.start - cur.newEnd).natAbs < 1000 : Bool)
            && sameDay tz cur.newStart x.start) = true
      · have hstep : runStep tz (props, some cur) x = (props, some (absorb cur x)) := by
          simp only [runStep]
          rw [if_pos hcond]
        rw [hstep]
        apply foldl_runStep_good tz P l props (some (absorb cur x)) hl' hP' hprops
        intro cur' hcur'
        obtain rfl := Option.some.inj hcur'.symm
        have hlex : ∀ a ∈ cur.originalRecords, a.start ≤ x.start :=
          fun a ha => hfwd a ha x (List.mem_cons_self x l)
        refine ⟨accCore_absorb x hc hlex, ?_, ?_⟩
        · intro a ha
          rw [show (absorb cur x).originalRecords = cur.originalRecords ++ [x] from rfl,
            List.mem_append] at ha
          rcases ha with ha | ha
          · exact hcP a ha
          · rw [List.mem_singleton] at ha; rw [ha]
            exact hP x (List.mem_cons_self x l)
        · intro a ha y hy
          rw [show (absorb cur x).originalRecords = cur.originalRecords ++ [x] from rfl,
            List.mem_append] at ha
          rcases ha with ha | ha
          · exact hfwd a ha y (List.mem_cons_of_mem x hy)
          · rw [List.mem_singleton] at ha; rw [ha]
            exact hx y hy
      · have hstep : runStep tz (props, some cur) x =
            (emitIfMulti props cur, some (seedProposal x)) := by
          simp only [runStep]
          rw [if_neg hcond]
        rw [hstep]
        apply foldl_runStep_good tz P l (emitIfMulti props cur) (some (seedProposal x)) hl' hP'
          (fun q hq => emitIfMulti_good hprops hc hcP q hq)
        intro cur' hcur'
        obtain rfl := Option.some.inj hcur'.symm
        exact seed_state_ok P x l (hP x (List.mem_cons_self x l)) hx

theorem processGroup_good (tz : Int) (P : IRecord → Prop) (g : List IRecord)
    (hg : ∀ x ∈ g, P x) : ∀ q ∈ processGroup tz g, GoodProp P q := by
  apply foldl_runStep_good tz P (List.insertionSort startLE g) [] none
  · exact List.sorted_insertionSort startLE g
  · intro x hx; exact hg x ((List.mem_insertionSort startLE).mp hx)
  · intro q hq; simp at hq
  · intro cur hcur; cases hcur

theorem mem_calculateMerges_good {tz : Int} {records : List IRecord} {q : MergeProposal}
    (hq : q ∈ calculateMerges tz records) :
    PropGood q ∧ ∀ a ∈ q.originalRecords, ∀ b ∈ q.originalRecords,
      joinKeys a.groupKeys = joinKeys b.groupKeys := by
  unfold calculateMerges groupsOf at hq
  rw [List.mem_flatten] at hq
  obtain ⟨ps, hps, hqps⟩ := hq
  rw [List.mem_map] at hps
  obtain ⟨g, hgmem, rfl⟩ := hps
  rw [List.mem_map] at hgmem
  obtain ⟨k, _, rfl⟩ := hgmem
  have hP : ∀ x ∈ records.filter (fun r => joinKeys r.groupKeys == k),
      joinKeys x.groupKeys = k := by
    intro x hxm
    exact eq_of_beq (List.mem_filter.mp hxm).2
  have hgood := processGroup_good tz (fun r => joinKeys r.groupKeys = k) _ hP q hqps
  exact ⟨hgood.1, fun a ha b hb => (hgood.2 a ha).trans (hgood.2 b hb).symm⟩

theorem foldl_runStep_isolated (tz : Int) :
    ∀ (l : List IRecord) (st : Option MergeProposal),
      l.Pairwise (fun a b => ¬ ContRec tz a b) →
      (st = none ∨ ∃ r, st = some (seedProposal r) ∧ ∀ x ∈ l, ¬ ContRec tz r x) →
      flushState (l.foldl (runStep tz) ([], st)) = []
  | [], st, _, hst => by
    rcases hst with rfl | ⟨r, rfl, _⟩
    · rfl
    · rfl
  | x :: l, st, hl, hst => by
    obtain ⟨hx, hl'⟩ := List.pairwise_cons.mp hl
    rw [List.foldl_cons]
    rcases hst with rfl | ⟨r, rfl, hno⟩
    · have hstep : runStep tz (([] : List MergeProposal), none) x =
          ([], some (seedProposal x)) := rfl
      rw [hstep]
      exact foldl_runStep_isolated tz l _ hl' (Or.inr ⟨x, rfl, hx⟩)
    · have hcnd : ¬ ((((x.start - (seedProposal r).newEnd).natAbs < 1000 : Bool)
          && sameDay tz (seedProposal r).newStart x.start) = true) := by
        intro hb
        rw [Bool.and_eq_true, decide_eq_true_eq] at hb
        exact hno x (List.mem_cons_self x l) ⟨hb.1, hb.2⟩
      have hstep : runStep tz ([], some (seedProposal r)) x =
          (emitIfMulti [] (seedProposal r), some (seedProposal x)) := by
        simp only [runStep]
        rw [if_neg hcnd]
      rw [hstep, emitIfMulti_seed]
      exact foldl_runStep_isolated tz l _ hl' (Or.inr ⟨x, rfl, hx⟩)

theorem processGroup_isolated (tz : Int) (g : List IRecord)
    (hg : g.Pairwise (fun a b => ¬ ContRec tz a b ∧ ¬ ContRec tz b a)) :
    processGroup tz g = [] := by
  unfold processGroup
  apply foldl_runStep_isolated tz (List.insertionSort startLE g) none
  · have hsym : ∀ {a b : IRecord},
        (¬ ContRec tz a b ∧ ¬ ContRec tz b a) → (¬ ContRec tz b a ∧ ¬ ContRec tz a b) :=
      fun h => ⟨h.2, h.1⟩
    have hperm : List.Pairwise (fun a b => ¬ ContRec tz a b ∧ ¬ ContRec tz b a)
          (List.insertionSort startLE g) ↔
        List.Pairwise (fun a b => ¬ ContRec tz a b ∧ ¬ ContRec tz b a) g :=
      (List.perm_insertionSort startLE g).pairwise_iff hsym
    exact (hperm.mpr hg).imp (fun h => h.1)
  · exact Or.inl rfl

theorem calculateMerges_isolated (tz : Int) (records : List IRecord)
    (h : records.Pairwise (fun r s => joinKeys r.groupKeys = joinKeys s.groupKeys →
      ¬ ContRec tz r s ∧ ¬ ContRec tz s r)) :
    calculateMerges tz records = [] := by
  unfold calculateMerges groupsOf
  rw [List.flatten_eq_nil_iff]
  intro ps hps
  rw [List.mem_map] at hps
  obtain ⟨g, hgmem, rfl⟩ := hps
  rw [List.mem_map] at hgmem
  obtain ⟨k, _, rfl⟩ := hgmem
  apply processGroup_isolated
  have hsub : List.Pairwise (fun r s => joinKeys r.groupKeys = joinKeys s.groupKeys →
        ¬ ContRec tz r s ∧ ¬ ContRec tz s r)
      (records.filter (fun r => joinKeys r.groupKeys == k)) :=
    h.sublist (List.filter_sublist records)
  refine List.Pairwise.imp_of_mem ?_ hsub
  intro a b ha hb hab
  apply hab
  have hka := eq_of_beq (List.mem_filter.mp ha).2
  have hkb := eq_of_beq (List.mem_filter.mp hb).2
  rw [hka, hkb]

/-- C1: for every proposal emitted by `calculateMerges`, `newStart` equals
the minimum `start` over its `originalRecords` and `newEnd` equals the
maximum end over its `originalRecords`. -/
theorem claim_C1_bounds (tz : Int) (records : List IRecord) :
    ∀ q ∈ calculateMerges tz records,
      (q.newStart ∈ q.originalRecords.map IRecord.start ∧
        ∀ s ∈ q.originalRecords.map IRecord.start, q.newStart ≤ s) ∧
      (q.newEnd ∈ q.originalRecords.map IRecord.stop ∧
        ∀ e ∈ q.originalRecords.map IRecord.stop, e ≤ q.newEnd) := by
  intro q hq
  obtain ⟨⟨r, rs, ho, hb, hs, hd, he, hp, hne, hv⟩, _⟩ := mem_calculateMerges_good hq
  refine ⟨⟨?_, ?_⟩, ?_, ?_⟩
  · rw [ho, hs]
    exact List.mem_map_of_mem IRecord.start (List.mem_cons_self r rs)
  · intro s hsm
    rw [ho, List.mem_map] at hsm
    obtain ⟨x, hx, rfl⟩ := hsm
    rw [hs]
    rcases List.mem_cons.mp hx with rfl | hx'
    · exact le_refl _
    · exact (List.pairwise_cons.mp hp).1 x hx'
  · rw [ho, he]
    rcases maxEndFrom_choice rs r.stop with hch | ⟨x, hx, hch⟩
    · rw [hch]
      exact List.mem_map_of_mem IRecord.stop (List.mem_cons_self r rs)
    · rw [hch]
      exact List.mem_map_of_mem IRecord.stop (List.mem_cons_of_mem r hx)
  · intro e hem
    rw [ho, List.mem_map] at hem
    obtain ⟨x, hx, rfl⟩ := hem
    rw [he]
    rcases List.mem_cons.mp hx with rfl | hx'
    · exact le_maxEndFrom rs x.stop
    · exact mem_le_maxEndFrom rs r.stop x hx'

/-- Witness for C1 at the concrete input `[w1, w2]`. -/
theorem claim_C1_bounds_witness :
    wProp ∈ calculateMerges 0 [w1, w2] ∧
      ((wProp.newStart ∈ wProp.originalRecords.map IRecord.start ∧
        ∀ s ∈ wProp.originalRecords.map IRecord.start, wProp.newStart ≤ s) ∧
      (wProp.newEnd ∈ wProp.originalRecords.map IRecord.stop ∧
        ∀ e ∈ wProp.originalRecords.map IRecord.stop, e ≤ wProp.newEnd)) :=
  ⟨by decide, claim_C1_bounds 0 [w1, w2] wProp (by decide)⟩

/-- C2: every proposal of `calculateMerges` has a nonempty `recordsToDelete`
(hence at least two contributing records), and an input whose same-group
records are pairwise non-continuous produces no proposals at all. -/
theorem claim_C2_no_singleton (tz : Int) (records : List IRecord) :
    (∀ q ∈ calculateMerges tz records,
      q.recordsToDelete ≠ [] ∧ 2 ≤ q.originalRecords.length) ∧
    (records.Pairwise (fun r s => joinKeys r.groupKeys = joinKeys s.groupKeys →
        ¬ ContRec tz r s ∧ ¬ ContRec tz s r) →
      calculateMerges tz records = []) := by
  constructor
  · intro q hq
    obtain ⟨⟨r, rs, ho, hb, hs, hd, he, hp, hne, hv⟩, _⟩ := mem_calculateMerges_good hq
    constructor
    · rw [hd]
      intro hcon
      exact hne (List.map_eq_nil_iff.mp hcon)
    · rw [ho, List.length_cons]
      have hpos := List.length_pos.mpr hne
      omega
  · exact calculateMerges_isolated tz records

/-- Witness for C2: the isolated pair `[iso1, iso2]` yields no proposals,
and the emitted proposal on `[w1, w2]` has a deletion. -/
theorem claim_C2_no_singleton_witness :
    calculateMerges 0 [iso1, iso2] = [] ∧
      (wProp.recordsToDelete ≠ [] ∧ 2 ≤ wProp.originalRecords.length) :=
  ⟨(claim_C2_no_singleton 0 [iso1, iso2]).2 (by decide),
   (claim_C2_no_singleton 0 [w1, w2]).1 wProp (by decide)⟩

/-- C3: for every proposal, `|recordsToDelete| + 1 = |originalRecords|` and
`{baseRecordId} ∪ recordsToDelete` equals the set of ids of
`originalRecords`. -/
theorem claim_C3_conservation (tz : Int) (records : List IRecord) :
    ∀ q ∈ calculateMerges tz records,
      q.recordsToDelete.length + 1 = q.originalRecords.length ∧
      ∀ x, (x = q.baseRecordId ∨ x ∈ q.recordsToDelete) ↔
        x ∈ q.originalRecords.map IRecord.id := by
  intro q hq
  obtain ⟨⟨r, rs, ho, hb, hs, hd, he, hp, hne, hv⟩, _⟩ := mem_calculateMerges_good hq
  constructor
  · rw [hd, ho]
    simp
  · intro x
    rw [ho, hb, hd, List.map_cons, List.mem_cons]

/-- Witness for C3 at the concrete input `[w1, w2]`. -/
theorem claim_C3_conservation_witness :
    wProp ∈ calculateMerges 0 [w1, w2] ∧
      (wProp.recordsToDelete.length + 1 = wProp.originalRecords.length ∧
      ∀ x, (x = wProp.baseRecordId ∨ x ∈ wProp.recordsToDelete) ↔
        x ∈ wProp.originalRecords.map IRecord.id) :=
  ⟨by decide, claim_C3_conservation 0 [w1, w2] wProp (by decide)⟩

/-- C5 (amended): two records in the same proposal always have equal joined
group keys; the original element-wise claim fails on separator collisions
(see the counterexample). -/
theorem claim_C5_grouping (tz : Int) (records : List IRecord) :
    ∀ q ∈ calculateMerges tz records, ∀ a ∈ q.originalRecords,
      ∀ b ∈ q.originalRecords, joinKeys a.groupKeys = joinKeys b.groupKeys :=
  fun _ hq => (mem_calculateMerges_good hq).2

/-- Counterexample to C5 as stated: `k1`'s and `k2`'s `groupKeys` sequences
differ element-wise, yet both records land in one proposal, because
`["a|||b"]` and `["a", "b"]` join to the same key string. -/
theorem claim_C5_counterexample :
    k1.groupKeys ≠ k2.groupKeys ∧
    ∃ q ∈ calculateMerges 0 [k1, k2],
      k1 ∈ q.originalRecords ∧ k2 ∈ q.originalRecords := by decide

/-- Witness for the amended C5 at the concrete input `[w1, w2]`. -/
theorem claim_C5_grouping_witness :
    wProp ∈ calculateMerges 0 [w1, w2] ∧ w1 ∈ wProp.originalRecords ∧
      w2 ∈ wProp.originalRecords ∧
      joinKeys w1.groupKeys = joinKeys w2.groupKeys :=
  ⟨by decide, by decide, by decide,
   claim_C5_grouping 0 [w1, w2] wProp (by decide) w1 (by decide) w2 (by decide)⟩

/-- C8: a proposal carries `validation` iff all contributing records have a
`duration`; when present, `originalSum` is the sum of the durations and
`newDuration` is `newEnd - newStart`. -/
theorem claim_C8_validation (tz : Int) (records : List IRecord) :
    ∀ q ∈ calculateMerges tz records,
      ((∀ r ∈ q.originalRecords, r.duration.isSome) →
        q.validation = some ⟨(q.originalRecords.map (fun r => r.duration.getD 0)).sum,
          q.newEnd - q.newStart, true⟩) ∧
      ((∃ r ∈ q.originalRecords, r.duration = none) → q.validation = none) := by
  intro q hq
  obtain ⟨⟨r, rs, ho, hb, hs, hd, he, hp, hne, hv⟩, _⟩ := mem_calculateMerges_good hq
  constructor
  · intro hall
    have hallt : (r :: rs).all (fun x => x.duration.isSome) = true := by
      rw [List.all_eq_true]
      intro x hx
      exact hall x (by rw [ho]; exact hx)
    rw [hv, if_pos hallt, sumDur_eq, ho]
  · rintro ⟨x, hx, hxd⟩
    have hallf : ¬ ((r :: rs).all (fun y => y.duration.isSome) = true) := by
      rw [List.all_eq_true]
      intro hcon
      have := hcon x (by rw [← ho]; exact hx)
      rw [hxd] at this
      cases this
    rw [hv, if_neg hallf]

/-- Witness for C8 at the concrete input `[w1, w2]` (both carry
durations). -/
theorem claim_C8_validation_witness :
    wProp ∈ calculateMerges 0 [w1, w2] ∧
      wProp.validation = some ⟨(wProp.originalRecords.map (fun r => r.duration.getD 0)).sum,
        wProp.newEnd - wProp.newStart, true⟩ :=
  ⟨by decide, (claim_C8_validation 0 [w1, w2] wProp (by decide)).1 (by decide)⟩

/-- C9: for every proposal, `originalRecords` is sorted ascending by `start`
and `baseRecordId` is the id of its first (chronologically earliest)
record. -/
theorem claim_C9_sorted_base (tz : Int) (records : List IRecord) :
    ∀ q ∈ calculateMerges tz records,
      q.originalRecords.Pairwise (fun a b => a.start ≤ b.start) ∧
      ∃ r rs, q.originalRecords = r :: rs ∧ q.baseRecordId = r.id ∧
        ∀ x ∈ q.originalRecords, r.start ≤ x.start := by
  intro q hq
  obtain ⟨⟨r, rs, ho, hb, hs, hd, he, hp, hne, hv⟩, _⟩ := mem_calculateMerges_good hq
  refine ⟨by rw [ho]; exact hp, r, rs, ho, hb, ?_⟩
  intro x hx
  rw [ho] at hx
  rcases List.mem_cons.mp hx with rfl | hx'
  · exact le_refl _
  · exact (List.pairwise_cons.mp hp).1 x hx'

/-- Witness for C9 at the concrete input `[w1, w2]`. -/
theorem claim_C9_sorted_base_witness :
    wProp ∈ calculateMerges 0 [w1, w2] ∧
      (wProp.originalRecords.Pairwise (fun a b => a.start ≤ b.start) ∧
      ∃ r rs, wProp.originalRecords = r :: rs ∧ wProp.baseRecordId = r.id ∧
        ∀ x ∈ wProp.originalRecords, r.start ≤ x.start) :=
  ⟨by decide, claim_C9_sorted_base 0 [w1, w2] wProp (by decide)⟩

/-- C10: whenever a proposal carries a `validation` payload, its `isValid`
flag is `true`; the planner never computes a pass/fail judgement. -/
theorem claim_C10_isValid (tz : Int) (records : List IRecord) :
    ∀ q ∈ calculateMerges tz records, ∀ v, q.validation = some v →
      v.isValid = true := by
  intro q hq v hqv
  obtain ⟨⟨r, rs, ho, hb, hs, hd, he, hp, hne, hv⟩, _⟩ := mem_calculateMerges_good hq
  rw [hv] at hqv
  by_cases hall : (r :: rs).all (fun x => x.duration.isSome) = true
  · rw [if_pos hall] at hqv
    rw [← Option.some.inj hqv]
  · rw [if_neg hall] at hqv
    cases hqv

/-- Witness for C10 at the concrete input `[w1, w2]`. -/
theorem claim_C10_isValid_witness :
    wProp ∈ calculateMerges 0 [w1, w2] ∧ wProp.validation = some wVal ∧
      wVal.isValid = true :=
  ⟨by decide, by decide, claim_C10_isValid 0 [w1, w2] wProp (by decide) wVal (by decide)⟩

theorem calculateMerges_pair (tz : Int) (r1 r2 : IRecord)
    (hg : joinKeys r2.groupKeys = joinKeys r1.groupKeys)
    (hle : r1.start ≤ r2.start) :
    calculateMerges tz [r1, r2] =
      flushState (runStep tz (runStep tz ([], none) r1) r2) := by
  have hkeys : keysOf [r1, r2] = [joinKeys r1.groupKeys] := by
    simp [keysOf, hg]
  have hgrp : groupsOf [r1, r2] = [[r1, r2]] := by
    rw [groupsOf, hkeys]
    simp [hg]
  have hsort : List.insertionSort startLE [r1, r2] = [r1, r2] := by
    simp [List.insertionSort, List.orderedInsert, startLE, hle]
  rw [calculateMerges, hgrp, List.map_cons, List.map_nil, List.flatten_cons,
    List.flatten_nil, List.append_nil, processGroup, hsort, List.foldl_cons,
    List.foldl_cons, List.foldl_nil]

theorem calculateMergesNoDay_pair (r1 r2 : IRecord)
    (hg : joinKeys r2.groupKeys = joinKeys r1.groupKeys)
    (hle : r1.start ≤ r2.start) :
    calculateMergesNoDay [r1, r2] =
      flushStateNoDay (runStepNoDay (runStepNoDay ([], none) r1) r2) := by
  have hkeys : keysOf [r1, r2] = [joinKeys r1.groupKeys] := by
    simp [keysOf, hg]
  have hgrp : groupsOf [r1, r2] = [[r1, r2]] := by
    rw [groupsOf, hkeys]
    simp [hg]
  have hsort : List.insertionSort startLE [r1, r2] = [r1, r2] := by
    simp [List.insertionSort, List.orderedInsert, startLE, hle]
  rw [calculateMergesNoDay, hgrp, List.map_cons, List.map_nil, List.flatten_cons,
    List.flatten_nil, List.append_nil, processGroupNoDay, hsort, List.foldl_cons,
    List.foldl_cons, List.foldl_nil]

/-- C4: two same-group, same-day records with `start₂ - end₁ = 999` merge
into one proposal; with a gap of 1000 or more they do not merge. -/
theorem claim_C4_tolerance (tz : Int) (r1 r2 : IRecord)
    (hg : r1.groupKeys = r2.groupKeys)
    (hd : sameDay tz r1.start r2.start = true)
    (hle : r1.start ≤ r2.start) :
    (r2.start - r1.stop = 999 →
      ∃ q, calculateMerges tz [r1, r2] = [q] ∧ q.originalRecords = [r1, r2]) ∧
    (1000 ≤ r2.start - r1.stop → calculateMerges tz [r1, r2] = []) := by
  have hg' : joinKeys r2.groupKeys = joinKeys r1.groupKeys := by rw [hg]
  have hstep1 : runStep tz ([], none) r1 = ([], some (seedProposal r1)) := rfl
  constructor
  · intro h999
    rw [calculateMerges_pair tz r1 r2 hg' hle, hstep1]
    have hc : (((r2.start - (seedProposal r1).newEnd).natAbs < 1000 : Bool)
        && sameDay tz (seedProposal r1).newStart r2.start) = true := by
      rw [Bool.and_eq_true, decide_eq_true_eq]
      refine ⟨?_, hd⟩
      show (r2.start - r1.stop).natAbs < 1000
      rw [h999]
      decide
    have hstep2 : runStep tz ([], some (seedProposal r1)) r2 =
        ([], some (absorb (seedProposal r1) r2)) := by
      simp only [runStep]
      rw [if_pos hc]
    rw [hstep2]
    refine ⟨finalizeProposal (absorb (seedProposal r1) r2), ?_, ?_⟩
    · show emitIfMulti [] (absorb (seedProposal r1) r2) =
        [finalizeProposal (absorb (seedProposal r1) r2)]
      rw [emitIfMulti, if_pos]
      · rfl
      · show 0 < (([] : List String) ++ [r2.id]).length
        simp
    · rw [(finalizeProposal_spec _).2.2.2.2.1]
      rfl
  · intro h1000
    rw [calculateMerges_pair tz r1 r2 hg' hle, hstep1]
    have hnc : ¬ ((((r2.start - (seedProposal r1).newEnd).natAbs < 1000 : Bool)
        && sameDay tz (seedProposal r1).newStart r2.start) = true) := by
      intro hb
      rw [Bool.and_eq_true, decide_eq_true_eq] at hb
      have h1 : (r2.start - r1.stop).natAbs < 1000 := hb.1
      have heq : ((r2.start - r1.stop).natAbs : Int) = r2.start - r1.stop :=
        Int.natAbs_of_nonneg (by omega)
      omega
    have hstep2 : runStep tz ([], some (seedProposal r1)) r2 =
        (emitIfMulti [] (seedProposal r1), some (seedProposal r2)) := by
      simp only [runStep]
      rw [if_neg hnc]
    rw [hstep2, emitIfMulti_seed]
    rfl

/-- Witness for C4: the pair `[t1, t2]` (gap 999) merges, the pair
`[t3, t4]` (gap 1000) does not. -/
theorem claim_C4_tolerance_witness :
    (∃ q, calculateMerges 0 [t1, t2] = [q] ∧ q.originalRecords = [t1, t2]) ∧
      calculateMerges 0 [t3, t4] = [] :=
  ⟨(claim_C4_tolerance 0 t1 t2 (by decide) (by decide) (by decide)).1 (by decide),
   (claim_C4_tolerance 0 t3 t4 (by decide) (by decide) (by decide)).2 (by decide)⟩

/-- C7: records at 23:59:59.500 of local day `D` and 00:00:00.500 of day
`D + 1` do not merge under the same-day variant, and do merge (given
numeric continuity) under the variant without the same-day check. -/
theorem claim_C7_same_day_boundary (tz D : Int) (r1 r2 : IRecord)
    (hg : r1.groupKeys = r2.groupKeys)
    (h1 : r1.start + tz = D * 86400000 + 86399500)
    (h2 : r2.start + tz = (D + 1) * 86400000 + 500)
    (hseq : (r2.start - r1.stop).natAbs < 1000) :
    calculateMerges tz [r1, r2] = [] ∧
    ∃ q, calculateMergesNoDay [r1, r2] = [q] ∧ q.originalRecords = [r1, r2] := by
  have hg' : joinKeys r2.groupKeys = joinKeys r1.groupKeys := by rw [hg]
  have hle : r1.start ≤ r2.start := by omega
  have e1 : (D * 86400000 + 86399500).fdiv 86400000 = D := by
    rw [Int.fdiv_eq_ediv _ (by norm_num), add_comm,
      Int.add_mul_ediv_right _ _ (by norm_num : (86400000 : Int) ≠ 0)]
    have h0 : (86399500 : Int) / 86400000 = 0 := by decide
    rw [h0, zero_add]
  have e2 : ((D + 1) * 86400000 + 500).fdiv 86400000 = D + 1 := by
    rw [Int.fdiv_eq_ediv _ (by norm_num), add_comm,
      Int.add_mul_ediv_right _ _ (by norm_num : (86400000 : Int) ≠ 0)]
    have h0 : (500 : Int) / 86400000 = 0 := by decide
    rw [h0, zero_add]
  have hsd : sameDay tz r1.start r2.start = false := by
    show ((r1.start + tz).fdiv 86400000 == (r2.start + tz).fdiv 86400000) = false
    rw [h1, h2, e1, e2]
    simp only [beq_eq_false_iff_ne, ne_eq]
    omega
  constructor
  · have hstep1 : runStep tz ([], none) r1 = ([], some (seedProposal r1)) := rfl
    rw [calculateMerges_pair tz r1 r2 hg' hle, hstep1]
    have hnc : ¬ ((((r2.start - (seedProposal r1).newEnd).natAbs < 1000 : Bool)
        && sameDay tz (seedProposal r1).newStart r2.start) = true) := by
      intro hb
      rw [Bool.and_eq_true] at hb
      have hsdt : sameDay tz r1.start r2.start = true := hb.2
      rw [hsd] at hsdt
      cases hsdt
    have hstep2 : runStep tz ([], some (seedProposal r1)) r2 =
        (emitIfMulti [] (seedProposal r1), some (seedProposal r2)) := by
      simp only [runStep]
      rw [if_neg hnc]
    rw [hstep2, emitIfMulti_seed]
    rfl
  · have hstep1 : runStepNoDay ([], none) r1 = ([], some (seedProposal r1)) := rfl
    rw [calculateMergesNoDay_pair r1 r2 hg' hle, hstep1]
    have hc : (((r2.start - (seedProposal r1).newEnd).natAbs < 1000 : Bool)) = true := by
      rw [decide_eq_true_eq]
      exact hseq
    have hstep2 : runStepNoDay ([], some (seedProposal r1)) r2 =
        ([], some (absorb (seedProposal r1) r2)) := by
      simp only [runStepNoDay]
      rw [if_pos hc]
    rw [hstep2]
    refine ⟨absorb (seedProposal r1) r2, ?_, rfl⟩
    show emitRawIfMulti [] (absorb (seedProposal r1) r2) = [absorb (seedProposal r1) r2]
    rw [emitRawIfMulti, if_pos]
    · rfl
    · show 0 < (([] : List String) ++ [r2.id]).length
      simp

/-- Witness for C7 at `tz = 0`, `D = 0`, with the concrete pair
`[d1, d2]`. -/
theorem claim_C7_same_day_boundary_witness :
    calculateMerges 0 [d1, d2] = [] ∧
      ∃ q, calculateMergesNoDay [d1, d2] = [q] ∧ q.originalRecords = [d1, d2] :=
  claim_C7_same_day_boundary 0 0 d1 d2 (by decide) (by decide) (by decide) (by decide)

/-- C6 (amended): in the Open state, a candidate record whose `start`
precedes the accumulator's `newEnd` by less than the 1000 ms tolerance
satisfies the sequential predicate and is absorbed (given the same-day
condition); the unbounded-overlap version of the claim is refuted by
`claim_C6_counterexample`. -/
theorem claim_C6_overlap_absorbed (tz : Int) (props : List MergeProposal)
    (cur : MergeProposal) (x : IRecord)
    (hov : cur.newEnd - 1000 < x.start) (hlt : x.start < cur.newEnd)
    (hday : sameDay tz cur.newStart x.start = true) :
    runStep tz (props, some cur) x = (props, some (absorb cur x)) := by
  have hc : (((x.start - cur.newEnd).natAbs < 1000 : Bool)
      && sameDay tz cur.newStart x.start) = true := by
    rw [Bool.and_eq_true, decide_eq_true_eq]
    refine ⟨?_, hday⟩
    have heq : ((x.start - cur.newEnd).natAbs : Int) = -(x.start - cur.newEnd) := by
      rw [← Int.natAbs_neg]
      exact Int.natAbs_of_nonneg (by omega)
    omega
  simp only [runStep]
  rw [if_pos hc]

/-- Counterexample to C6 as stated: `cxB` starts before the accumulator's
`newEnd` (overlap 9500 ms) on the same day, yet it is not absorbed — the
run is restarted, and no proposal is emitted for `[cxA, cxB]`. -/
theorem claim_C6_counterexample :
    cxB.start < (seedProposal cxA).newEnd ∧
    sameDay 0 (seedProposal cxA).newStart cxB.start = true ∧
    runStep 0 ([], some (seedProposal cxA)) cxB = ([], some (seedProposal cxB)) ∧
    calculateMerges 0 [cxA, cxB] = [] := by decide

/-- Witness for the amended C6: `ovB` overlaps `ovA` by 600 ms and is
absorbed. -/
theorem claim_C6_overlap_absorbed_witness :
    ((seedProposal ovA).newEnd - 1000 < ovB.start ∧
      ovB.start < (seedProposal ovA).newEnd ∧
      sameDay 0 (seedProposal ovA).newStart ovB.start = true) ∧
    runStep 0 ([], some (seedProposal ovA)) ovB =
      ([], some (absorb (seedProposal ovA) ovB)) :=
  ⟨⟨by decide, by decide, by decide⟩,
   claim_C6_overlap_absorbed 0 [] (seedProposal ovA) ovB (by decide) (by decide) (by decide)⟩

/-- End-to-end example from the specification: records A and B merge (B is
deleted, the merged span is 600000–1200000), the isolated record C yields no
proposal. -/
theorem calculateMerges_end_to_end_example :
    calculateMerges 0
      [⟨"A", 600000, 900000, ["X"], none⟩,
       ⟨"B", 900500, 1200000, ["X"], none⟩,
       ⟨"C", 5000000, 5300000, ["X"], none⟩] =
    [{ baseRecordId := "A", newStart := 600000, newEnd := 1200000,
       recordsToDelete := ["B"],
       originalRecords := [⟨"A", 600000, 900000, ["X"], none⟩,
                           ⟨"B", 900500, 1200000, ["X"], none⟩],
       validation := none }] := by decide
